import Mathlib

/-!
# Verification of the file-backed document store (src/main.go)

Shallow embedding of the storage driver in src/main.go: a JSON value
model with the driver's serialization (json.MarshalIndent with prefix ""
and indent "\t") and deserialization (json.Unmarshal), and a filesystem
state model over which Write / Read / ReadAll / Delete are translated.

Modelling conventions:
* JSON numbers are modelled as integers. Go's encoding/json also admits
  floating-point literals; those are outside this embedding (the parser
  rejects fraction and exponent forms), and no property below depends on
  them.
* The filesystem is a state: the set of existing collection directories
  and an association list from (collection, file name) to file contents.
  I/O failures that the operating system may report are modelled by
  explicit fault-injection sets carried in the state (mkdirFail,
  readFail, writeFail, readDirFail); an operation consults them exactly
  where the Go code consults the error result of the corresponding
  system call.
* Each driver operation additionally returns the list of lock and
  filesystem events it performed, in order, so that claims about lock
  discipline and about "no filesystem access" are statable.
-/

/-- JSON value tree, the shape encoding/json produces for the driver's
`interface\x7b\x7d` payloads (numbers restricted to integers, see above). -/
inductive Json where
  | null : Json
  | bool (b : Bool) : Json
  | num (n : Int) : Json
  | str (s : String) : Json
  | arr (elems : List Json) : Json
  | obj (fields : List (String × Json)) : Json

/-- Decimal digit character, as strconv produces. -/
def digitChar (n : Nat) : Char := Char.ofNat (48 + n)

/-- Lowercase hexadecimal digit character, as encoding/json's string
escaper produces. -/
def hexChar (n : Nat) : Char :=
  if n < 10 then Char.ofNat (48 + n) else Char.ofNat (87 + n)

/-- Fueled decimal digit accumulator (least significant digit first is
peeled, digits are consed so the result is most significant first). -/
def digitLoop : Nat → Nat → List Char → List Char
  | 0, _, acc => acc
  | fuel + 1, n, acc =>
    if n < 10 then digitChar n :: acc
    else digitLoop fuel (n / 10) (digitChar (n % 10) :: acc)

/-- Decimal representation of a natural number. -/
def natChars (n : Nat) : List Char := digitLoop (n + 1) n []

/-- Decimal representation of an integer, as strconv.AppendInt writes
it inside encoding/json. -/
def intChars : Int → List Char
  | .ofNat n => natChars n
  | .negSucc m => '-' :: natChars (m + 1)

/-- Four-digit lowercase hex, the body of a \u escape. -/
def hex4 (n : Nat) : List Char :=
  [hexChar (n / 4096 % 16), hexChar (n / 256 % 16), hexChar (n / 16 % 16), hexChar (n % 16)]

/-- String-character escaping of encoding/json with HTML escaping on
(the Marshal default): backslash, quote, the control characters, and
the HTML-sensitive characters and the line separators U+2028/U+2029
become escapes, everything else is emitted verbatim. -/
def escapeChar (c : Char) : List Char :=
  if c = '"' then ['\\', '"']
  else if c = '\\' then ['\\', '\\']
  else if c = '\n' then ['\\', 'n']
  else if c = '\r' then ['\\', 'r']
  else if c = '\t' then ['\\', 't']
  else if c.toNat < 32 ∨ c = '<' ∨ c = '>' ∨ c = '&' ∨ c.toNat = 8232 ∨ c.toNat = 8233 then
    '\\' :: 'u' :: hex4 c.toNat
  else [c]

/-- A JSON string literal: quote, escaped characters, quote. -/
def quoteChars (s : List Char) : List Char :=
  '"' :: s.flatMap escapeChar ++ ['"']

/-- Indentation at nesting depth k for MarshalIndent(v, "", "\t"). -/
def indentChars (k : Nat) : List Char := List.replicate k '\t'

mutual
/-- The output of json.MarshalIndent(v, "", "\t") at nesting depth k:
compact tokens, a newline and one extra tab of indentation inside each
non-empty composite, a space after each key's colon. -/
def printVal : Nat → Json → List Char
  | _, .null => ['n', 'u', 'l', 'l']
  | _, .bool true => ['t', 'r', 'u', 'e']
  | _, .bool false => ['f', 'a', 'l', 's', 'e']
  | _, .num n => intChars n
  | _, .str s => quoteChars s.data
  | _, .arr [] => ['[', ']']
  | k, .arr (e :: es) =>
    '[' :: '\n' :: (printItems (k + 1) e es ++ '\n' :: indentChars k ++ [']'])
  | _, .obj [] => ['\x7b', '\x7d']
  | k, .obj ((key, v) :: fs) =>
    '\x7b' :: '\n' :: (printFields (k + 1) key v fs ++ '\n' :: indentChars k ++ ['\x7d'])
  termination_by _ j => sizeOf j
  decreasing_by all_goals (first | (simp; omega) | simp)

/-- Comma-and-newline separated, indented array items. -/
def printItems : Nat → Json → List Json → List Char
  | k, e, [] => indentChars k ++ printVal k e
  | k, e, e' :: es =>
    indentChars k ++ printVal k e ++ ',' :: '\n' :: printItems k e' es
  termination_by _ e es => sizeOf e + sizeOf es
  decreasing_by all_goals (first | (simp; omega) | simp)

/-- Comma-and-newline separated, indented object members. -/
def printFields : Nat → String → Json → List (String × Json) → List Char
  | k, key, v, [] => indentChars k ++ quoteChars key.data ++ ':' :: ' ' :: printVal k v
  | k, key, v, (key', v') :: fs =>
    indentChars k ++ quoteChars key.data ++ ':' :: ' ' :: printVal k v ++
      ',' :: '\n' :: printFields k key' v' fs
  termination_by _ _ v fs => sizeOf v + sizeOf fs
  decreasing_by all_goals (first | (simp; omega) | simp)
end

/-- JSON insignificant whitespace, the set Go's scanner skips. -/
def isWs (c : Char) : Bool := c = ' ' || c = '\t' || c = '\n' || c = '\r'

/-- Skip insignificant whitespace. -/
def skipWs (cs : List Char) : List Char := cs.dropWhile isWs

/-- ASCII decimal digit test. -/
def isDigitC (c : Char) : Bool := 48 ≤ c.toNat && c.toNat ≤ 57

/-- Value of a decimal digit character. -/
def digitVal (c : Char) : Nat := c.toNat - 48

/-- ASCII hexadecimal digit test (json's unescaper accepts both cases). -/
def isHexC (c : Char) : Bool :=
  (48 ≤ c.toNat && c.toNat ≤ 57) || (97 ≤ c.toNat && c.toNat ≤ 102) ||
    (65 ≤ c.toNat && c.toNat ≤ 70)

/-- Value of a hexadecimal digit character. -/
def hexVal (c : Char) : Nat :=
  if c.toNat ≤ 57 then c.toNat - 48
  else if 97 ≤ c.toNat then c.toNat - 87
  else c.toNat - 55

/-- Greedy decimal digit run, accumulating left to right. -/
def parseDigits : List Char → Nat → Nat × List Char
  | [], acc => (acc, [])
  | c :: cs, acc =>
    if isDigitC c then parseDigits cs (acc * 10 + digitVal c) else (acc, c :: cs)

/-- Does the remainder continue a number token in a way the integer
model cannot represent (fraction or exponent)? -/
def numCont : List Char → Bool
  | [] => false
  | c :: _ => c = '.' || c = 'e' || c = 'E'

/-- Number token parser (integers only; a fraction or exponent
continuation is rejected by the model, see the header comment). -/
def parseNum : List Char → Option (Json × List Char)
  | [] => none
  | c :: cs =>
    if c = '-' then
      match cs with
      | [] => none
      | d :: cs' =>
        if isDigitC d then
          let (n, r) := parseDigits cs' (digitVal d)
          if numCont r then none else some (.num (-(n : Int)), r)
        else none
    else if isDigitC c then
      let (n, r) := parseDigits cs (digitVal c)
      if numCont r then none else some (.num (n : Int), r)
    else none

/-- Simple backslash escapes accepted by json's string unescaper. -/
def unescapeSimple (e : Char) : Option Char :=
  if e = '"' then some '"'
  else if e = '\\' then some '\\'
  else if e = '/' then some '/'
  else if e = 'b' then some (Char.ofNat 8)
  else if e = 'f' then some (Char.ofNat 12)
  else if e = 'n' then some '\n'
  else if e = 'r' then some '\r'
  else if e = 't' then some '\t'
  else none

/-- Body of a JSON string literal after the opening quote: returns the
decoded characters and the remainder after the closing quote. Raw
control characters are rejected, as Go's scanner rejects them. -/
def parseStrBody : List Char → Option (List Char × List Char)
  | [] => none
  | c :: rest =>
    if c = '"' then some ([], rest)
    else if c = '\\' then
      match rest with
      | [] => none
      | e :: rest' =>
        if e = 'u' then
          match rest' with
          | h1 :: h2 :: h3 :: h4 :: r =>
            if isHexC h1 && isHexC h2 && isHexC h3 && isHexC h4 then
              (parseStrBody r).map (fun p =>
                (Char.ofNat (((hexVal h1 * 16 + hexVal h2) * 16 + hexVal h3) * 16 + hexVal h4)
                  :: p.1, p.2))
            else none
          | _ => none
        else
          match unescapeSimple e with
          | some d => (parseStrBody rest').map (fun p => (d :: p.1, p.2))
          | none => none
    else if c.toNat < 32 then none
    else (parseStrBody rest).map (fun p => (c :: p.1, p.2))
  termination_by cs => cs.length
  decreasing_by all_goals (simp only [List.length_cons]; omega)

mutual
/-- Fueled JSON value parser, the model of json.Unmarshal's scanner:
skip whitespace, dispatch on the first character. -/
def parseVal : Nat → List Char → Option (Json × List Char)
  | 0, _ => none
  | fuel + 1, cs =>
    match skipWs cs with
    | [] => none
    | c :: rest =>
      if c = 'n' then
        match rest with
        | 'u' :: 'l' :: 'l' :: r => some (.null, r)
        | _ => none
      else if c = 't' then
        match rest with
        | 'r' :: 'u' :: 'e' :: r => some (.bool true, r)
        | _ => none
      else if c = 'f' then
        match rest with
        | 'a' :: 'l' :: 's' :: 'e' :: r => some (.bool false, r)
        | _ => none
      else if c = '"' then
        (parseStrBody rest).map (fun p => (.str (String.mk p.1), p.2))
      else if c = '[' then
        match skipWs rest with
        | ']' :: r => some (.arr [], r)
        | _ => (parseItems fuel rest).map (fun p => (.arr p.1, p.2))
      else if c = '\x7b' then
        match skipWs rest with
        | '\x7d' :: r => some (.obj [], r)
        | _ => (parseFields fuel rest).map (fun p => (.obj p.1, p.2))
      else parseNum (c :: rest)

/-- Items of a non-empty array, after the opening bracket. -/
def parseItems : Nat → List Char → Option (List Json × List Char)
  | 0, _ => none
  | fuel + 1, cs =>
    match parseVal fuel cs with
    | none => none
    | some (v, r) =>
      match skipWs r with
      | ',' :: r2 => (parseItems fuel r2).map (fun p => (v :: p.1, p.2))
      | ']' :: r2 => some ([v], r2)
      | _ => none

/-- Members of a non-empty object, after the opening brace. -/
def parseFields : Nat → List Char → Option (List (String × Json) × List Char)
  | 0, _ => none
  | fuel + 1, cs =>
    match skipWs cs with
    | [] => none
    | c :: r =>
      if c = '"' then
        match parseStrBody r with
        | none => none
        | some (key, r1) =>
          match skipWs r1 with
          | ':' :: r2 =>
            match parseVal fuel r2 with
            | none => none
            | some (v, r3) =>
              match skipWs r3 with
              | ',' :: r4 =>
                (parseFields fuel r4).map (fun p => ((String.mk key, v) :: p.1, p.2))
              | '\x7d' :: r4 => some ([(String.mk key, v)], r4)
              | _ => none
          | _ => none
      else none
end

/-- Error kinds the driver's operations surface, matching the Go error
values: the validation error of Write, os.IsNotExist failures of
Stat/Remove, other injected I/O failures, json.Marshal failure on an
unencodable value, json.Unmarshal failure on malformed bytes. -/
inductive Err where
  | validation : Err
  | notFound : Err
  | ioFail : Err
  | serializeFail : Err
  | deserializeFail : Err
deriving DecidableEq

/-- The message carried by each error kind, where the Go code fixes one. -/
def Err.message : Err → String
  | .validation => "missing collection or resource"
  | .notFound => "file does not exist"
  | .ioFail => "i/o error"
  | .serializeFail => "json: unsupported type"
  | .deserializeFail => "invalid json"

/-- json.Unmarshal: parse one value, then nothing but whitespace may
remain. -/
def unmarshal (s : String) : Except Err Json :=
  match parseVal (s.data.length + 1) s.data with
  | none => .error .deserializeFail
  | some (v, rest) => if skipWs rest = [] then .ok v else .error .deserializeFail

/-- Marshal: serialize one value. -/
def marshal (j : Json) : String := String.mk (printVal 0 j)

/-- A Go `interface\x7b\x7d` argument: either a value encodable to JSON
or one json.Marshal rejects (channel, function, cyclic value). -/
inductive GoVal where
  | ofJson (j : Json) : GoVal
  | unencodable : GoVal

/-- json.MarshalIndent(v, "", "\t") on a driver payload. -/
def marshalIndent : GoVal → Except Err String
  | .ofJson j => .ok (marshal j)
  | .unencodable => .error .serializeFail

/-- A record file's key relative to the store root: the collection
(subdirectory) name and the file name inside it, resource + ".json". -/
abbrev FileKey := String × String

/-- Filesystem state under the store root. dirs is the set of existing
collection subdirectories, files maps a file key to its contents.
The four fault sets inject the I/O failures the operating system may
report: an operation consults them exactly where the Go code consults
the error result of the corresponding system call (os.MkdirAll,
os.ReadFile, os.WriteFile, os.ReadDir). -/
structure FS where
  dirs : List String
  files : List (FileKey × String)
  mkdirFail : List String
  readFail : List FileKey
  writeFail : List FileKey
  readDirFail : List String
deriving DecidableEq

/-- Content of the file at a key, if it exists (os.Stat / os.ReadFile
view of the state). -/
def FS.lookupFile (fs : FS) (p : FileKey) : Option String :=
  (fs.files.find? (fun e => e.1 = p)).map (fun e => e.2)

/-- os.WriteFile: create the file or fully replace its contents. -/
def FS.setFile (fs : FS) (p : FileKey) (b : String) : FS :=
  { fs with files := (p, b) :: fs.files.filter (fun e => ¬ e.1 = p) }

/-- os.Remove on a file: drop it from the state. -/
def FS.removeFile (fs : FS) (p : FileKey) : FS :=
  { fs with files := fs.files.filter (fun e => ¬ e.1 = p) }

/-- os.MkdirAll on the collection's directory (the root already
exists): record the directory as present. -/
def FS.addDir (fs : FS) (c : String) : FS :=
  if c ∈ fs.dirs then fs else { fs with dirs := c :: fs.dirs }

/-- Does the directory joined from the root and c exist?
filepath.Join(root, "") cleans to the root itself, which New created,
so the empty collection name designates an existing directory. -/
def FS.dirExists (fs : FS) (c : String) : Bool :=
  c = "" || fs.dirs.contains c

/-- os.ReadDir's entry list for a collection directory: the names of
the files it holds (enumeration order is unspecified; the model fixes
the state's order). -/
def FS.dirEntries (fs : FS) (c : String) : List String :=
  fs.files.filterMap (fun e => if e.1.1 = c then some e.1.2 else none)

/-- The driver handle of src/main.go: the root directory path and the
set of collection names for which a mutex has been created. -/
structure Driver where
  dir : String
  mutexes : List String
deriving DecidableEq

/-- getOrCreateMutex: under the store-wide guard, look up the
collection's mutex, registering a fresh one on first touch. -/
def getOrCreateMutex (d : Driver) (c : String) : Driver :=
  if c ∈ d.mutexes then d else { d with mutexes := c :: d.mutexes }

/-- Lock and filesystem events an operation performs, in order. -/
inductive Event where
  | acquire (c : String) : Event
  | release (c : String) : Event
  | statFile (p : FileKey) : Event
  | statDir (c : String) : Event
  | mkdirAll (c : String) : Event
  | readFile (p : FileKey) : Event
  | readDir (c : String) : Event
  | writeFile (p : FileKey) : Event
  | removeFile (p : FileKey) : Event
deriving DecidableEq

/-- Result of a mutating operation: the Go error value, the driver
(whose mutex table may have grown), the filesystem after the
operation, and the events performed. -/
structure MutRes where
  res : Except Err Unit
  drv : Driver
  fs : FS
  tr : List Event

/-- Write (src/main.go lines 47-69): validate both names, acquire the
collection's mutex, ensure the collection directory, serialize with
MarshalIndent, write the record file; the deferred unlock releases the
mutex on every exit path past validation. -/
def Write (d : Driver) (fs : FS) (collection resource : String) (v : GoVal) : MutRes :=
  if collection = "" ∨ resource = "" then
    ⟨.error .validation, d, fs, []⟩
  else
    let d1 := getOrCreateMutex d collection
    let p : FileKey := (collection, resource ++ ".json")
    if collection ∈ fs.mkdirFail then
      ⟨.error .ioFail, d1, fs,
        [.acquire collection, .mkdirAll collection, .release collection]⟩
    else
      let fs1 := fs.addDir collection
      match marshalIndent v with
      | .error e =>
        ⟨.error e, d1, fs1,
          [.acquire collection, .mkdirAll collection, .release collection]⟩
      | .ok b =>
        if p ∈ fs.writeFail then
          ⟨.error .ioFail, d1, fs1,
            [.acquire collection, .mkdirAll collection, .writeFile p,
              .release collection]⟩
        else
          ⟨.ok (), d1, fs1.setFile p b,
            [.acquire collection, .mkdirAll collection, .writeFile p,
              .release collection]⟩

/-- Result of Read: the Go error value or the decoded value placed in
the destination, and the events performed. -/
structure ReadRes where
  res : Except Err Json
  tr : List Event

/-- Read (src/main.go lines 72-84): stat the record path, failing with
the not-found error when it is absent, without touching any lock; read
the file; json.Unmarshal into the destination. -/
def Read (d : Driver) (fs : FS) (collection resource : String) : ReadRes :=
  let p : FileKey := (collection, resource ++ ".json")
  match fs.lookupFile p with
  | none => ⟨.error .notFound, [.statFile p]⟩
  | some b =>
    if p ∈ fs.readFail then ⟨.error .ioFail, [.statFile p, .readFile p]⟩
    else ⟨unmarshal b, [.statFile p, .readFile p]⟩

/-- Result of ReadAll: the raw payloads or the Go error value, and the
events performed. -/
structure ReadAllRes where
  res : Except Err (List String)
  tr : List Event

/-- The enumeration loop of ReadAll: read every listed file in turn,
aborting with the failing read's error. -/
def readLoop (fs : FS) (c : String) : List String → Except Err (List String) × List Event
  | [] => (.ok [], [])
  | f :: rest =>
    if (c, f) ∈ fs.readFail then (.error .ioFail, [.readFile (c, f)])
    else
      match fs.lookupFile (c, f) with
      | none => (.error .ioFail, [.readFile (c, f)])
      | some b =>
        let (r, tr) := readLoop fs c rest
        (r.map (fun bs => b :: bs), .readFile (c, f) :: tr)

/-- ReadAll (src/main.go lines 87-104): stat the collection directory,
failing with the not-found error when absent; enumerate it with
os.ReadDir, discarding any enumeration error (so a failed enumeration
yields no entries); read every entry, aborting on a failing read. No
lock is touched. -/
def ReadAll (d : Driver) (fs : FS) (c : String) : ReadAllRes :=
  if fs.dirExists c = false then ⟨.error .notFound, [.statDir c]⟩
  else
    let entries := if c ∈ fs.readDirFail then [] else fs.dirEntries c
    let (r, tr) := readLoop fs c entries
    ⟨r, .statDir c :: .readDir c :: tr⟩

/-- Delete (src/main.go lines 107-115): no validation; acquire the
collection's mutex, os.Remove the record path (failing with the
not-found error when it is absent), release the mutex. -/
def Delete (d : Driver) (fs : FS) (collection resource : String) : MutRes :=
  let p : FileKey := (collection, resource ++ ".json")
  let d1 := getOrCreateMutex d collection
  match fs.lookupFile p with
  | none =>
    ⟨.error .notFound, d1, fs, [.acquire collection, .removeFile p, .release collection]⟩
  | some _ =>
    ⟨.ok (), d1, fs.removeFile p,
      [.acquire collection, .removeFile p, .release collection]⟩

/-- The multiset of locks still held after a trace of events, given
those held before: acquire pushes, release removes one occurrence. -/
def heldAfter : List Event → List String → List String
  | [], held => held
  | .acquire c :: tr, held => heldAfter tr (c :: held)
  | .release c :: tr, held => heldAfter tr (held.erase c)
  | _ :: tr, held => heldAfter tr held

/-- The remainder after a printed value does not extend a number
token: it is empty or starts with something that is not a digit and
not a fraction or exponent mark. -/
def numDelim : List Char → Prop
  | [] => True
  | c :: _ => isDigitC c = false ∧ c ≠ '.' ∧ c ≠ 'e' ∧ c ≠ 'E'

/-- The remainder does not start with a digit. -/
def headNotDigit : List Char → Prop
  | [] => True
  | c :: _ => isDigitC c = false

/-! ## Lemmas: whitespace -/

theorem skipWs_cons_ws (c : Char) (cs : List Char) (h : isWs c = true) :
    skipWs (c :: cs) = skipWs cs := by
  simp [skipWs, List.dropWhile, h]

theorem skipWs_cons_not (c : Char) (cs : List Char) (h : isWs c = false) :
    skipWs (c :: cs) = c :: cs := by
  simp [skipWs, List.dropWhile, h]

theorem skipWs_ws_append (ws cs : List Char) (h : ∀ c ∈ ws, isWs c = true) :
    skipWs (ws ++ cs) = skipWs cs := by
  induction ws with
  | nil => rfl
  | cons a l ih =>
    simp only [List.cons_append]
    rw [skipWs_cons_ws _ _ (h a (by simp)), ih (fun c hc => h c (by simp [hc]))]

theorem indent_ws (k : Nat) : ∀ c ∈ indentChars k, isWs c = true := by
  intro c hc
  rw [indentChars, List.mem_replicate] at hc
  rw [hc.2]; decide

theorem skipWs_indent (k : Nat) (cs : List Char) :
    skipWs (indentChars k ++ cs) = skipWs cs :=
  skipWs_ws_append _ _ (indent_ws k)

/-! ## Lemmas: decimal digits -/

theorem digitLoop_acc : ∀ (fuel n : Nat) (acc : List Char),
    digitLoop fuel n acc = digitLoop fuel n [] ++ acc := by
  intro fuel
  induction fuel with
  | zero => intro n acc; simp [digitLoop]
  | succ fuel ih =>
    intro n acc
    by_cases h : n < 10
    · simp [digitLoop, h]
    · rw [digitLoop, digitLoop, if_neg h, if_neg h, ih _ (digitChar (n % 10) :: acc),
        ih _ [digitChar (n % 10)]]
      simp

theorem digitLoop_extra : ∀ (n fuel₁ fuel₂ : Nat) (acc : List Char),
    n < fuel₁ → n < fuel₂ → digitLoop fuel₁ n acc = digitLoop fuel₂ n acc := by
  intro n
  induction n using Nat.strong_induction_on with
  | _ n ih =>
    intro fuel₁ fuel₂ acc h₁ h₂
    match fuel₁, fuel₂ with
    | f₁ + 1, f₂ + 1 =>
      by_cases h : n < 10
      · simp [digitLoop, h]
      · rw [digitLoop, digitLoop, if_neg h, if_neg h]
        exact ih (n / 10) (Nat.div_lt_self (by omega) (by omega)) f₁ f₂ _
          (by omega) (by omega)

theorem digitVal_digitChar (n : Nat) (h : n < 10) : digitVal (digitChar n) = n := by
  interval_cases n <;> decide

theorem isDigitC_digitChar (n : Nat) (h : n < 10) : isDigitC (digitChar n) = true := by
  interval_cases n <;> decide

theorem digitLoop_all_digits : ∀ (fuel n : Nat) (acc : List Char),
    (∀ c ∈ acc, isDigitC c = true) → ∀ c ∈ digitLoop fuel n acc, isDigitC c = true := by
  intro fuel
  induction fuel with
  | zero => intro n acc hacc; simpa [digitLoop] using hacc
  | succ fuel ih =>
    intro n acc hacc c hc
    by_cases h : n < 10
    · rw [digitLoop, if_pos h] at hc
      rcases List.mem_cons.mp hc with rfl | hmem
      · exact isDigitC_digitChar n h
      · exact hacc c hmem
    · rw [digitLoop, if_neg h] at hc
      refine ih _ _ ?_ c hc
      intro c' hc'
      rcases List.mem_cons.mp hc' with rfl | hmem
      · exact isDigitC_digitChar _ (Nat.mod_lt _ (by omega))
      · exact hacc c' hmem

theorem natChars_all_digits (n : Nat) : ∀ c ∈ natChars n, isDigitC c = true :=
  digitLoop_all_digits _ _ _ (by intro c hc; cases hc)

theorem natChars_ne_nil (n : Nat) : natChars n ≠ [] := by
  rw [natChars]
  by_cases h : n < 10
  · rw [digitLoop, if_pos h]; simp
  · rw [digitLoop, if_neg h, digitLoop_acc]; simp

theorem foldl_readNat : ∀ n : Nat,
    List.foldl (fun a c => a * 10 + digitVal c) 0 (natChars n) = n := by
  intro n
  induction n using Nat.strong_induction_on with
  | _ n ih =>
    by_cases h : n < 10
    · rw [natChars, digitLoop, if_pos h]
      simp [digitVal_digitChar n h]
    · have hdiv : n / 10 < n := Nat.div_lt_self (by omega) (by omega)
      have step : natChars n = natChars (n / 10) ++ [digitChar (n % 10)] := by
        rw [natChars, digitLoop, if_neg h, digitLoop_acc, natChars,
          digitLoop_extra (n / 10) n (n / 10 + 1) [] (by omega) (by omega)]
      rw [step, List.foldl_append, ih (n / 10) hdiv]
      simp only [List.foldl_cons, List.foldl_nil]
      rw [digitVal_digitChar _ (Nat.mod_lt _ (by omega))]
      omega

theorem parseDigits_run : ∀ (ds : List Char), (∀ c ∈ ds, isDigitC c = true) →
    ∀ (rest : List Char) (acc : Nat), headNotDigit rest →
    parseDigits (ds ++ rest) acc =
      (List.foldl (fun a c => a * 10 + digitVal c) acc ds, rest) := by
  intro ds
  induction ds with
  | nil =>
    intro _ rest acc hrest
    cases rest with
    | nil => simp [parseDigits]
    | cons c cs => simp [parseDigits, headNotDigit] at hrest ⊢; simp [hrest]
  | cons d ds ih =>
    intro hds rest acc hrest
    have hd : isDigitC d = true := hds d (by simp)
    simp only [List.cons_append, parseDigits, hd, if_pos, List.append_eq]
    rw [ih (fun c hc => hds c (by simp [hc])) rest _ hrest]
    simp

/-! ## Lemmas: character classes -/

theorem digit_props (c : Char) (h : isDigitC c = true) :
    isWs c = false ∧ c ≠ '-' ∧ c ≠ 'n' ∧ c ≠ 't' ∧ c ≠ 'f' ∧ c ≠ '"' ∧
      c ≠ '[' ∧ c ≠ '\x7b' ∧ c ≠ ']' ∧ c ≠ '\x7d' ∧ c ≠ ',' ∧ c ≠ ':' := by
  refine ⟨?_, ?_, ?_, ?_, ?_, ?_, ?_, ?_, ?_, ?_, ?_, ?_⟩
  · by_contra hw
    rw [Bool.not_eq_false] at hw
    rw [isWs] at hw
    rcases Bool.or_eq_true_iff.mp hw with hw' | h4
    · rcases Bool.or_eq_true_iff.mp hw' with hw'' | h3
      · rcases Bool.or_eq_true_iff.mp hw'' with h1 | h2
        · rw [of_decide_eq_true h1] at h; exact absurd h (by decide)
        · rw [of_decide_eq_true h2] at h; exact absurd h (by decide)
      · rw [of_decide_eq_true h3] at h; exact absurd h (by decide)
    · rw [of_decide_eq_true h4] at h; exact absurd h (by decide)
  all_goals (rintro rfl; revert h; decide)

theorem numDelim_headNotDigit (rest : List Char) (h : numDelim rest) :
    headNotDigit rest := by
  cases rest with
  | nil => trivial
  | cons c cs => exact h.1

theorem numDelim_numCont (rest : List Char) (h : numDelim rest) :
    numCont rest = false := by
  cases rest with
  | nil => rfl
  | cons c cs =>
    obtain ⟨-, h1, h2, h3⟩ := h
    simp [numCont, h1, h2, h3]

/-! ## Lemmas: number token round trip -/

theorem natChars_cons (m : Nat) : ∃ d ds, natChars m = d :: ds := by
  cases hnat : natChars m with
  | nil => exact absurd hnat (natChars_ne_nil m)
  | cons d ds => exact ⟨d, ds, rfl⟩

theorem parseDigits_natChars (m : Nat) (d : Char) (ds rest : List Char)
    (hds : natChars m = d :: ds) (hrest : headNotDigit rest) :
    parseDigits (ds ++ rest) (digitVal d) = (m, rest) := by
  have hall : ∀ c ∈ ds, isDigitC c = true := fun c hc =>
    natChars_all_digits m c (by rw [hds]; simp [hc])
  rw [parseDigits_run ds hall rest _ hrest]
  have hfold := foldl_readNat m
  rw [hds] at hfold
  simp only [List.foldl_cons, Nat.zero_mul, Nat.zero_add] at hfold
  rw [hfold]

theorem parseNum_intChars (n : Int) (rest : List Char) (h : numDelim rest) :
    parseNum (intChars n ++ rest) = some (.num n, rest) := by
  have hnd := numDelim_headNotDigit rest h
  have hnc := numDelim_numCont rest h
  cases n with
  | ofNat m =>
    obtain ⟨d, ds, hds⟩ := natChars_cons m
    rw [show intChars (Int.ofNat m) = natChars m from rfl, hds]
    have hd : isDigitC d = true := natChars_all_digits m d (by rw [hds]; simp)
    simp only [List.cons_append, parseNum]
    rw [if_neg (fun hc => (digit_props d hd).2.1 hc), if_pos hd,
      parseDigits_natChars m d ds rest hds hnd]
    simp [hnc]
  | negSucc m =>
    obtain ⟨d, ds, hds⟩ := natChars_cons (m + 1)
    rw [show intChars (Int.negSucc m) = '-' :: natChars (m + 1) from rfl, hds]
    have hd : isDigitC d = true := natChars_all_digits (m + 1) d (by rw [hds]; simp)
    simp only [List.cons_append, parseNum, if_true]
    rw [if_pos hd, parseDigits_natChars (m + 1) d ds rest hds hnd]
    simp [hnc, Int.negSucc_eq]

/-! ## Lemmas: hex digits and the string escape round trip -/

theorem hexVal_hexChar (m : Nat) (h : m < 16) : hexVal (hexChar m) = m := by
  interval_cases m <;> decide

theorem isHexC_hexChar (m : Nat) (h : m < 16) : isHexC (hexChar m) = true := by
  interval_cases m <;> decide

theorem hex4_decode (n : Nat) (h : n < 65536) :
    isHexC (hexChar (n / 4096 % 16)) = true ∧ isHexC (hexChar (n / 256 % 16)) = true ∧
    isHexC (hexChar (n / 16 % 16)) = true ∧ isHexC (hexChar (n % 16)) = true ∧
    ((hexVal (hexChar (n / 4096 % 16)) * 16 + hexVal (hexChar (n / 256 % 16))) * 16 +
        hexVal (hexChar (n / 16 % 16))) * 16 + hexVal (hexChar (n % 16)) = n := by
  refine ⟨isHexC_hexChar _ (Nat.mod_lt _ (by omega)),
    isHexC_hexChar _ (Nat.mod_lt _ (by omega)),
    isHexC_hexChar _ (Nat.mod_lt _ (by omega)),
    isHexC_hexChar _ (Nat.mod_lt _ (by omega)), ?_⟩
  rw [hexVal_hexChar _ (Nat.mod_lt _ (by omega)),
    hexVal_hexChar _ (Nat.mod_lt _ (by omega)),
    hexVal_hexChar _ (Nat.mod_lt _ (by omega)),
    hexVal_hexChar _ (Nat.mod_lt _ (by omega))]
  omega

theorem parseStrBody_quote (rest : List Char) :
    parseStrBody ('"' :: rest) = some ([], rest) := by
  rw [parseStrBody.eq_def]
  simp

theorem parseStrBody_esc_simple (e d : Char) (rest : List Char) (he : e ≠ 'u')
    (hd : unescapeSimple e = some d) :
    parseStrBody ('\\' :: e :: rest) =
      (parseStrBody rest).map (fun p => (d :: p.1, p.2)) := by
  rw [parseStrBody.eq_def]
  simp only [if_neg (by decide : ¬ ('\\' : Char) = '"'), if_pos rfl, if_neg he, hd, if_true]

theorem parseStrBody_esc_u (h1 h2 h3 h4 : Char) (rest : List Char)
    (hx1 : isHexC h1 = true) (hx2 : isHexC h2 = true) (hx3 : isHexC h3 = true)
    (hx4 : isHexC h4 = true) :
    parseStrBody ('\\' :: 'u' :: h1 :: h2 :: h3 :: h4 :: rest) =
      (parseStrBody rest).map (fun p =>
        (Char.ofNat (((hexVal h1 * 16 + hexVal h2) * 16 + hexVal h3) * 16 + hexVal h4)
          :: p.1, p.2)) := by
  rw [parseStrBody.eq_def]
  simp only [if_neg (by decide : ¬ ('\\' : Char) = '"'), if_pos rfl, hx1, hx2, hx3, hx4,
    Bool.and_self, Bool.and_true, if_true]

theorem parseStrBody_plain (c : Char) (rest : List Char) (h1 : c ≠ '"') (h2 : c ≠ '\\')
    (h3 : ¬ c.toNat < 32) :
    parseStrBody (c :: rest) =
      (parseStrBody rest).map (fun p => (c :: p.1, p.2)) := by
  rw [parseStrBody.eq_def]
  simp only [if_neg h1, if_neg h2, if_neg h3]

theorem parseStrBody_escape : ∀ (s rest : List Char),
    parseStrBody (s.flatMap escapeChar ++ '"' :: rest) = some (s, rest) := by
  intro s
  induction s with
  | nil => intro rest; simpa using parseStrBody_quote rest
  | cons c s ih =>
    intro rest
    simp only [List.flatMap_cons, List.append_assoc]
    by_cases h1 : c = '"'
    · subst h1
      rw [show escapeChar '"' = ['\\', '"'] by decide]
      rw [List.cons_append, List.cons_append, List.nil_append,
        parseStrBody_esc_simple '"' '"' _ (by decide) (by decide), ih rest]
      rfl
    by_cases h2 : c = '\\'
    · subst h2
      rw [show escapeChar '\\' = ['\\', '\\'] by decide]
      rw [List.cons_append, List.cons_append, List.nil_append,
        parseStrBody_esc_simple '\\' '\\' _ (by decide) (by decide), ih rest]
      rfl
    by_cases h3 : c = '\n'
    · subst h3
      rw [show escapeChar '\n' = ['\\', 'n'] by decide]
      rw [List.cons_append, List.cons_append, List.nil_append,
        parseStrBody_esc_simple 'n' '\n' _ (by decide) (by decide), ih rest]
      rfl
    by_cases h4 : c = '\r'
    · subst h4
      rw [show escapeChar '\r' = ['\\', 'r'] by decide]
      rw [List.cons_append, List.cons_append, List.nil_append,
        parseStrBody_esc_simple 'r' '\r' _ (by decide) (by decide), ih rest]
      rfl
    by_cases h5 : c = '\t'
    · subst h5
      rw [show escapeChar '\t' = ['\\', 't'] by decide]
      rw [List.cons_append, List.cons_append, List.nil_append,
        parseStrBody_esc_simple 't' '\t' _ (by decide) (by decide), ih rest]
      rfl
    by_cases h6 : c.toNat < 32 ∨ c = '<' ∨ c = '>' ∨ c = '&' ∨ c.toNat = 8232 ∨ c.toNat = 8233
    · have hesc : escapeChar c = '\\' :: 'u' :: hex4 c.toNat := by
        rw [escapeChar, if_neg h1, if_neg h2, if_neg h3, if_neg h4, if_neg h5, if_pos h6]
      have hlt : c.toNat < 65536 := by
        rcases h6 with h | h | h | h | h | h
        · omega
        · subst h; decide
        · subst h; decide
        · subst h; decide
        · omega
        · omega
      obtain ⟨hx1, hx2, hx3, hx4, hdec⟩ := hex4_decode c.toNat hlt
      rw [hesc]
      simp only [hex4, List.cons_append, List.nil_append]
      rw [parseStrBody_esc_u _ _ _ _ _ hx1 hx2 hx3 hx4, ih rest]
      simp [hdec, Char.ofNat_toNat]
    · have hesc : escapeChar c = [c] := by
        rw [escapeChar, if_neg h1, if_neg h2, if_neg h3, if_neg h4, if_neg h5, if_neg h6]
      have hge : ¬ c.toNat < 32 := fun hc => h6 (Or.inl hc)
      rw [hesc]
      simp only [List.cons_append, List.nil_append]
      rw [parseStrBody_plain c _ h1 h2 hge, ih rest]
      rfl

/-! ## Lemmas: parser whitespace stripping and printed head shapes -/

theorem parseVal_ws (fuel : Nat) (ws cs : List Char) (h : ∀ c ∈ ws, isWs c = true) :
    parseVal fuel (ws ++ cs) = parseVal fuel cs := by
  cases fuel with
  | zero => rfl
  | succ f => rw [parseVal, parseVal, skipWs_ws_append ws cs h]

theorem parseItems_ws (fuel : Nat) (ws cs : List Char) (h : ∀ c ∈ ws, isWs c = true) :
    parseItems fuel (ws ++ cs) = parseItems fuel cs := by
  cases fuel with
  | zero => rfl
  | succ f => rw [parseItems, parseItems, parseVal_ws f ws cs h]

theorem parseFields_ws (fuel : Nat) (ws cs : List Char) (h : ∀ c ∈ ws, isWs c = true) :
    parseFields fuel (ws ++ cs) = parseFields fuel cs := by
  cases fuel with
  | zero => rfl
  | succ f => rw [parseFields, parseFields, skipWs_ws_append ws cs h]

theorem stringMk_data (s : String) : String.mk s.data = s := by
  cases s
  rfl

theorem intChars_head (n : Int) : ∃ c cs, intChars n = c :: cs ∧ isWs c = false ∧
    c ≠ 'n' ∧ c ≠ 't' ∧ c ≠ 'f' ∧ c ≠ '"' ∧ c ≠ '[' ∧ c ≠ '\x7b' ∧
    c ≠ ']' ∧ c ≠ '\x7d' := by
  cases n with
  | ofNat m =>
    obtain ⟨d, ds, hds⟩ := natChars_cons m
    have hd : isDigitC d = true := natChars_all_digits m d (by rw [hds]; simp)
    obtain ⟨hws, _, hn, ht, hf, hq, hlb, hob, hrb, hrc, -, -⟩ := digit_props d hd
    exact ⟨d, ds, by rw [intChars, hds], hws, hn, ht, hf, hq, hlb, hob, hrb, hrc⟩
  | negSucc m =>
    exact ⟨'-', natChars (m + 1), rfl, by decide, by decide, by decide, by decide,
      by decide, by decide, by decide, by decide, by decide⟩

theorem printVal_head (k : Nat) (v : Json) : ∃ c cs, printVal k v = c :: cs ∧
    isWs c = false ∧ c ≠ ']' ∧ c ≠ '\x7d' := by
  cases v with
  | null => exact ⟨'n', ['u', 'l', 'l'], by simp [printVal], by decide, by decide, by decide⟩
  | bool b =>
    cases b with
    | true => exact ⟨'t', ['r', 'u', 'e'], by simp [printVal], by decide, by decide, by decide⟩
    | false =>
      exact ⟨'f', ['a', 'l', 's', 'e'], by simp [printVal], by decide, by decide, by decide⟩
  | num n =>
    obtain ⟨c, cs, heq, hws, -, -, -, -, -, -, hrb, hrc⟩ := intChars_head n
    exact ⟨c, cs, by rw [printVal, heq], hws, hrb, hrc⟩
  | str s =>
    exact ⟨'"', s.data.flatMap escapeChar ++ ['"'], by simp [printVal, quoteChars],
      by decide, by decide, by decide⟩
  | arr es =>
    cases es with
    | nil => exact ⟨'[', [']'], by simp [printVal], by decide, by decide, by decide⟩
    | cons e es =>
      exact ⟨'[', '\n' :: (printItems (k + 1) e es ++ '\n' :: (indentChars k ++ [']'])),
        by simp [printVal], by decide, by decide, by decide⟩
  | obj fs =>
    cases fs with
    | nil => exact ⟨'\x7b', ['\x7d'], by simp [printVal], by decide, by decide, by decide⟩
    | cons f fs =>
      obtain ⟨key, v⟩ := f
      exact ⟨'\x7b',
        '\n' :: (printFields (k + 1) key v fs ++ '\n' :: (indentChars k ++ ['\x7d'])),
        by simp [printVal], by decide, by decide, by decide⟩

theorem printItems_shape (k : Nat) (e : Json) (es : List Json) (X : List Char) :
    ∃ c cs, printItems k e es ++ X = indentChars k ++ (c :: cs) ∧
      isWs c = false ∧ c ≠ ']' ∧ c ≠ '\x7d' := by
  obtain ⟨c, cs', hv, hws, h1, h2⟩ := printVal_head k e
  cases es with
  | nil =>
    exact ⟨c, cs' ++ X, by rw [printItems, hv]; simp, hws, h1, h2⟩
  | cons e' es =>
    exact ⟨c, cs' ++ ',' :: '\n' :: printItems k e' es ++ X,
      by rw [printItems, hv]; simp, hws, h1, h2⟩

theorem printFields_shape (k : Nat) (key : String) (v : Json)
    (fs : List (String × Json)) (X : List Char) :
    ∃ cs, printFields k key v fs ++ X = indentChars k ++ ('"' :: cs) := by
  cases fs with
  | nil =>
    exact ⟨key.data.flatMap escapeChar ++ '"' :: ':' :: ' ' :: (printVal k v ++ X),
      by rw [printFields, quoteChars]; simp⟩
  | cons f fs =>
    obtain ⟨key', v'⟩ := f
    exact ⟨key.data.flatMap escapeChar ++
        '"' :: ':' :: ' ' :: (printVal k v ++ ',' :: '\n' :: (printFields k key' v' fs ++ X)),
      by rw [printFields, quoteChars]; simp⟩

theorem parseVal_cons_ws (fuel : Nat) (c : Char) (cs : List Char) (h : isWs c = true) :
    parseVal fuel (c :: cs) = parseVal fuel cs :=
  parseVal_ws fuel [c] cs (by intro x hx; simp at hx; subst hx; exact h)

theorem parseItems_cons_ws (fuel : Nat) (c : Char) (cs : List Char) (h : isWs c = true) :
    parseItems fuel (c :: cs) = parseItems fuel cs :=
  parseItems_ws fuel [c] cs (by intro x hx; simp at hx; subst hx; exact h)

theorem parseFields_cons_ws (fuel : Nat) (c : Char) (cs : List Char) (h : isWs c = true) :
    parseFields fuel (c :: cs) = parseFields fuel cs :=
  parseFields_ws fuel [c] cs (by intro x hx; simp at hx; subst hx; exact h)

theorem numDelim_nl (X : List Char) : numDelim ('\n' :: X) :=
  ⟨by decide, by decide, by decide, by decide⟩

theorem numDelim_comma (X : List Char) : numDelim (',' :: X) :=
  ⟨by decide, by decide, by decide, by decide⟩


/-! ## Parser step lemmas -/

theorem parseVal_step_null (F : Nat) (X : List Char) :
    parseVal (F + 1) ('n' :: 'u' :: 'l' :: 'l' :: X) = some (.null, X) := by
  rw [parseVal, skipWs_cons_not 'n' _ (by decide)]
  rfl

theorem parseVal_step_true (F : Nat) (X : List Char) :
    parseVal (F + 1) ('t' :: 'r' :: 'u' :: 'e' :: X) = some (.bool true, X) := by
  rw [parseVal, skipWs_cons_not 't' _ (by decide)]
  rfl

theorem parseVal_step_false (F : Nat) (X : List Char) :
    parseVal (F + 1) ('f' :: 'a' :: 'l' :: 's' :: 'e' :: X) = some (.bool false, X) := by
  rw [parseVal, skipWs_cons_not 'f' _ (by decide)]
  rfl

theorem parseVal_step_quote (F : Nat) (X : List Char) :
    parseVal (F + 1) ('"' :: X) =
      (parseStrBody X).map (fun p => (Json.str (String.mk p.1), p.2)) := by
  rw [parseVal, skipWs_cons_not '"' _ (by decide)]
  rfl

theorem parseVal_step_lbracket (F : Nat) (X : List Char) :
    parseVal (F + 1) ('[' :: X) =
      (match skipWs X with
      | ']' :: r => some (Json.arr [], r)
      | _ => (parseItems F X).map (fun p => (Json.arr p.1, p.2))) := by
  rw [parseVal, skipWs_cons_not '[' _ (by decide)]
  rfl

theorem parseVal_step_lbrace (F : Nat) (X : List Char) :
    parseVal (F + 1) ('\x7b' :: X) =
      (match skipWs X with
      | '\x7d' :: r => some (Json.obj [], r)
      | _ => (parseFields F X).map (fun p => (Json.obj p.1, p.2))) := by
  rw [parseVal, skipWs_cons_not '\x7b' _ (by decide)]
  rfl

theorem parseVal_step_other (F : Nat) (c : Char) (X : List Char) (hws : isWs c = false)
    (hn : c ≠ 'n') (ht : c ≠ 't') (hf : c ≠ 'f') (hq : c ≠ '"') (hlb : c ≠ '[')
    (hob : c ≠ '\x7b') :
    parseVal (F + 1) (c :: X) = parseNum (c :: X) := by
  rw [parseVal, skipWs_cons_not c _ hws]
  simp only [if_neg hn, if_neg ht, if_neg hf, if_neg hq, if_neg hlb, if_neg hob]

theorem parseItems_last (F : Nat) (cs : List Char) (v : Json) (r r2 : List Char)
    (h : parseVal F cs = some (v, r)) (hsep : skipWs r = ']' :: r2) :
    parseItems (F + 1) cs = some ([v], r2) := by
  rw [parseItems]
  simp only [h, hsep]

theorem parseItems_more (F : Nat) (cs : List Char) (v : Json) (r r2 : List Char)
    (h : parseVal F cs = some (v, r)) (hsep : skipWs r = ',' :: r2) :
    parseItems (F + 1) cs = (parseItems F r2).map (fun p => (v :: p.1, p.2)) := by
  rw [parseItems]
  simp only [h, hsep]

theorem parseFields_last (F : Nat) (X key r1 r2 : List Char) (v : Json) (r3 r4 : List Char)
    (hstr : parseStrBody X = some (key, r1)) (hcolon : skipWs r1 = ':' :: r2)
    (hval : parseVal F r2 = some (v, r3)) (hsep : skipWs r3 = '\x7d' :: r4) :
    parseFields (F + 1) ('"' :: X) = some ([(String.mk key, v)], r4) := by
  rw [parseFields, skipWs_cons_not '"' _ (by decide)]
  simp only [eq_self_iff_true, if_true, hstr, hcolon, hval, hsep]

theorem parseFields_more (F : Nat) (X key r1 r2 : List Char) (v : Json) (r3 r4 : List Char)
    (hstr : parseStrBody X = some (key, r1)) (hcolon : skipWs r1 = ':' :: r2)
    (hval : parseVal F r2 = some (v, r3)) (hsep : skipWs r3 = ',' :: r4) :
    parseFields (F + 1) ('"' :: X) =
      (parseFields F r4).map (fun p => ((String.mk key, v) :: p.1, p.2)) := by
  rw [parseFields, skipWs_cons_not '"' _ (by decide)]
  simp only [eq_self_iff_true, if_true, hstr, hcolon, hval, hsep]

/-! ## The printer-parser round trip -/

theorem parsePrint : ∀ fuel : Nat,
    (∀ (v : Json) (k : Nat) (rest : List Char),
      (printVal k v).length < fuel → numDelim rest →
      parseVal fuel (printVal k v ++ rest) = some (v, rest)) ∧
    (∀ (e : Json) (es : List Json) (k j : Nat) (rest : List Char),
      1 ≤ k → (printItems k e es).length < fuel →
      parseItems fuel (printItems k e es ++ '\n' :: (indentChars j ++ ']' :: rest)) =
        some (e :: es, rest)) ∧
    (∀ (key : String) (v : Json) (fs : List (String × Json)) (k j : Nat) (rest : List Char),
      1 ≤ k → (printFields k key v fs).length < fuel →
      parseFields fuel (printFields k key v fs ++ '\n' :: (indentChars j ++ '\x7d' :: rest)) =
        some ((key, v) :: fs, rest)) := by
  intro fuel
  induction fuel with
  | zero =>
    refine ⟨?_, ?_, ?_⟩
    · intro v k rest h _; omega
    · intro e es k j rest _ h; omega
    · intro key v fs k j rest _ h; omega
  | succ F IH =>
    obtain ⟨ihV, ihI, ihF⟩ := IH
    refine ⟨?_, ?_, ?_⟩
    · intro v k rest hlen hdelim
      cases v with
      | null =>
        rw [printVal,
          show (['n', 'u', 'l', 'l'] : List Char) ++ rest = 'n' :: 'u' :: 'l' :: 'l' :: rest
            from rfl,
          parseVal_step_null]
      | bool b =>
        cases b with
        | true =>
          rw [printVal,
            show (['t', 'r', 'u', 'e'] : List Char) ++ rest = 't' :: 'r' :: 'u' :: 'e' :: rest
              from rfl,
            parseVal_step_true]
        | false =>
          rw [printVal,
            show (['f', 'a', 'l', 's', 'e'] : List Char) ++ rest =
              'f' :: 'a' :: 'l' :: 's' :: 'e' :: rest from rfl,
            parseVal_step_false]
      | num n =>
        obtain ⟨c0, tl, heq, hws, hn, ht, hf, hq, hlb, hob, -, -⟩ := intChars_head n
        rw [printVal, heq, List.cons_append,
          parseVal_step_other F c0 _ hws hn ht hf hq hlb hob,
          ← List.cons_append, ← heq]
        exact parseNum_intChars n rest hdelim
      | str s =>
        cases s with
        | mk sd =>
          rw [printVal, show (String.mk sd).data = sd from rfl, quoteChars,
            List.cons_append, List.cons_append, parseVal_step_quote, List.append_assoc,
            List.singleton_append, parseStrBody_escape sd rest]
          rfl
      | arr es =>
        cases es with
        | nil =>
          rw [printVal,
            show (['[', ']'] : List Char) ++ rest = '[' :: ']' :: rest from rfl,
            parseVal_step_lbracket, skipWs_cons_not ']' _ (by decide)]
          rfl
        | cons e es =>
          rw [printVal] at hlen ⊢
          have hlen' : (printItems (k + 1) e es).length < F := by
            simp only [List.length_cons, List.length_append, indentChars,
              List.length_replicate, List.length_singleton] at hlen
            omega
          simp only [List.cons_append, List.append_assoc, List.nil_append]
          rw [parseVal_step_lbracket]
          obtain ⟨c0, cs0, hshape, hws0, hrb0, -⟩ :=
            printItems_shape (k + 1) e es ('\n' :: (indentChars k ++ ']' :: rest))
          have hskip : skipWs ('\n' ::
              (printItems (k + 1) e es ++ '\n' :: (indentChars k ++ ']' :: rest))) =
              c0 :: cs0 := by
            rw [skipWs_cons_ws '\n' _ (by decide), hshape,
              skipWs_ws_append _ _ (indent_ws _), skipWs_cons_not c0 _ hws0]
          rw [hskip]
          split
          · next r heq2 =>
            rw [List.cons.injEq] at heq2
            exact absurd heq2.1 hrb0
          · rw [parseItems_cons_ws F '\n' _ (by decide),
              ihI e es (k + 1) k rest (by omega) hlen']
            rfl
      | obj fs =>
        cases fs with
        | nil =>
          rw [printVal,
            show (['\x7b', '\x7d'] : List Char) ++ rest = '\x7b' :: '\x7d' :: rest from rfl,
            parseVal_step_lbrace, skipWs_cons_not '\x7d' _ (by decide)]
          rfl
        | cons f fs =>
          obtain ⟨key, v⟩ := f
          rw [printVal] at hlen ⊢
          have hlen' : (printFields (k + 1) key v fs).length < F := by
            simp only [List.length_cons, List.length_append, indentChars,
              List.length_replicate, List.length_singleton] at hlen
            omega
          simp only [List.cons_append, List.append_assoc, List.nil_append]
          rw [parseVal_step_lbrace]
          obtain ⟨cs0, hshape⟩ :=
            printFields_shape (k + 1) key v fs ('\n' :: (indentChars k ++ '\x7d' :: rest))
          have hskip : skipWs ('\n' ::
              (printFields (k + 1) key v fs ++ '\n' :: (indentChars k ++ '\x7d' :: rest))) =
              '"' :: cs0 := by
            rw [skipWs_cons_ws '\n' _ (by decide), hshape,
              skipWs_ws_append _ _ (indent_ws _), skipWs_cons_not '"' _ (by decide)]
          rw [hskip]
          split
          · next r heq2 =>
            rw [List.cons.injEq] at heq2
            exact absurd heq2.1 (by decide)
          · rw [parseFields_cons_ws F '\n' _ (by decide),
              ihF key v fs (k + 1) k rest (by omega) hlen']
            rfl
    · intro e es k j rest hk hlen
      cases es with
      | nil =>
        rw [printItems] at hlen ⊢
        have hlenV : (printVal k e).length < F := by
          simp only [List.length_append, indentChars, List.length_replicate] at hlen
          omega
        rw [List.append_assoc]
        have hV : parseVal F (indentChars k ++
            (printVal k e ++ '\n' :: (indentChars j ++ ']' :: rest))) =
            some (e, '\n' :: (indentChars j ++ ']' :: rest)) := by
          rw [parseVal_ws F _ _ (indent_ws k)]
          exact ihV e k _ hlenV (numDelim_nl _)
        have hsep : skipWs ('\n' :: (indentChars j ++ ']' :: rest)) = ']' :: rest := by
          rw [skipWs_cons_ws '\n' _ (by decide), skipWs_ws_append _ _ (indent_ws j),
            skipWs_cons_not ']' _ (by decide)]
        exact parseItems_last F _ e _ rest hV hsep
      | cons e' es =>
        rw [printItems] at hlen ⊢
        have hlens : (printVal k e).length < F ∧ (printItems k e' es).length < F := by
          simp only [List.length_append, List.length_cons, indentChars,
            List.length_replicate] at hlen
          omega
        simp only [List.cons_append, List.append_assoc]
        have hV : parseVal F (indentChars k ++
            (printVal k e ++ ',' :: '\n' ::
              (printItems k e' es ++ '\n' :: (indentChars j ++ ']' :: rest)))) =
            some (e, ',' :: '\n' ::
              (printItems k e' es ++ '\n' :: (indentChars j ++ ']' :: rest))) := by
          rw [parseVal_ws F _ _ (indent_ws k)]
          exact ihV e k _ hlens.1 (numDelim_comma _)
        rw [parseItems_more F _ e _ _ hV
          (skipWs_cons_not ',' _ (by decide)),
          parseItems_cons_ws F '\n' _ (by decide),
          ihI e' es k j rest hk hlens.2]
        rfl
    · intro key v fs k j rest hk hlen
      cases fs with
      | nil =>
        rw [printFields] at hlen ⊢
        have hlenV : (printVal k v).length < F := by
          simp only [quoteChars, List.length_append, List.length_cons, indentChars,
            List.length_replicate] at hlen
          omega
        simp only [quoteChars, List.cons_append, List.append_assoc, List.nil_append]
        rw [parseFields_ws (F + 1) _ _ (indent_ws k)]
        have hval : parseVal F (' ' ::
            (printVal k v ++ '\n' :: (indentChars j ++ '\x7d' :: rest))) =
            some (v, '\n' :: (indentChars j ++ '\x7d' :: rest)) := by
          rw [parseVal_cons_ws F ' ' _ (by decide)]
          exact ihV v k _ hlenV (numDelim_nl _)
        have hsep : skipWs ('\n' :: (indentChars j ++ '\x7d' :: rest)) = '\x7d' :: rest := by
          rw [skipWs_cons_ws '\n' _ (by decide), skipWs_ws_append _ _ (indent_ws j),
            skipWs_cons_not '\x7d' _ (by decide)]
        rw [parseFields_last F _ key.data _ _ v _ rest
          (parseStrBody_escape key.data _) (skipWs_cons_not ':' _ (by decide)) hval hsep,
          stringMk_data]
      | cons f fs =>
        obtain ⟨key', v'⟩ := f
        rw [printFields] at hlen ⊢
        have hlens : (printVal k v).length < F ∧ (printFields k key' v' fs).length < F := by
          simp only [quoteChars, List.length_append, List.length_cons, indentChars,
            List.length_replicate] at hlen
          omega
        simp only [quoteChars, List.cons_append, List.append_assoc, List.nil_append]
        rw [parseFields_ws (F + 1) _ _ (indent_ws k)]
        have hval : parseVal F (' ' ::
            (printVal k v ++ ',' :: '\n' ::
              (printFields k key' v' fs ++ '\n' :: (indentChars j ++ '\x7d' :: rest)))) =
            some (v, ',' :: '\n' ::
              (printFields k key' v' fs ++ '\n' :: (indentChars j ++ '\x7d' :: rest))) := by
          rw [parseVal_cons_ws F ' ' _ (by decide)]
          exact ihV v k _ hlens.1 (numDelim_comma _)
        rw [parseFields_more F _ key.data _ _ v _ _
          (parseStrBody_escape key.data _) (skipWs_cons_not ':' _ (by decide)) hval
          (skipWs_cons_not ',' _ (by decide)),
          parseFields_cons_ws F '\n' _ (by decide),
          ihF key' v' fs k j rest hk hlens.2,
          stringMk_data]
        rfl

/-- Unmarshal of a marshalled value recovers the value: the heart of
the Write/Read round trip. -/
theorem unmarshal_marshal (j : Json) : unmarshal (marshal j) = .ok j := by
  have h := (parsePrint ((printVal 0 j).length + 1)).1 j 0 [] (by omega) trivial
  rw [List.append_nil] at h
  rw [marshal, unmarshal, show (String.mk (printVal 0 j)).data = printVal 0 j from rfl, h]
  rfl

/-! ## Lemmas: filesystem state -/

theorem lookupFile_setFile_self (fs : FS) (p : FileKey) (b : String) :
    (fs.setFile p b).lookupFile p = some b := by
  simp [FS.setFile, FS.lookupFile, List.find?]

theorem lookupFile_removeFile_self (fs : FS) (p : FileKey) :
    (fs.removeFile p).lookupFile p = none := by
  rw [FS.removeFile, FS.lookupFile]
  have hnone : List.find? (fun e => e.1 = p)
      (fs.files.filter (fun e => ¬ e.1 = p)) = none := by
    rw [List.find?_eq_none]
    intro x hx
    rw [List.mem_filter] at hx
    simpa using hx.2
  rw [show ({ fs with files := fs.files.filter (fun e => ¬ e.1 = p) } : FS).files =
    fs.files.filter (fun e => ¬ e.1 = p) from rfl, hnone]
  rfl

theorem addDir_files (fs : FS) (c : String) : (fs.addDir c).files = fs.files := by
  rw [FS.addDir]; split <;> rfl

theorem addDir_mkdirFail (fs : FS) (c : String) :
    (fs.addDir c).mkdirFail = fs.mkdirFail := by
  rw [FS.addDir]; split <;> rfl

theorem addDir_readFail (fs : FS) (c : String) : (fs.addDir c).readFail = fs.readFail := by
  rw [FS.addDir]; split <;> rfl

theorem addDir_writeFail (fs : FS) (c : String) :
    (fs.addDir c).writeFail = fs.writeFail := by
  rw [FS.addDir]; split <;> rfl

theorem mem_addDir_dirs (fs : FS) (c : String) : c ∈ (fs.addDir c).dirs := by
  rw [FS.addDir]
  split
  · assumption
  · exact List.mem_cons_self _ _

theorem setFile_readFail (fs : FS) (p : FileKey) (b : String) :
    (fs.setFile p b).readFail = fs.readFail := rfl

theorem setFile_dirs (fs : FS) (p : FileKey) (b : String) :
    (fs.setFile p b).dirs = fs.dirs := rfl

theorem lookupFile_of_addDir (fs : FS) (c : String) (p : FileKey) :
    (fs.addDir c).lookupFile p = fs.lookupFile p := by
  rw [FS.lookupFile, FS.lookupFile, addDir_files]

theorem dirEntries_lookup (fs : FS) (c : String) :
    ∀ f ∈ fs.dirEntries c, (fs.lookupFile (c, f)).isSome := by
  intro f hf
  rw [FS.dirEntries, List.mem_filterMap] at hf
  obtain ⟨e, he, hcond⟩ := hf
  by_cases hc : e.1.1 = c
  · rw [if_pos hc] at hcond
    injection hcond with hfe
    rw [FS.lookupFile]
    have hfind : (List.find? (fun e => e.1 = (c, f)) fs.files).isSome := by
      rw [List.find?_isSome]
      refine ⟨e, he, ?_⟩
      have : e.1 = (c, f) := by
        cases e with
        | mk k b =>
          cases k with
          | mk k1 k2 =>
            simp only at hc hfe
            simp [hc, hfe]
      simp [this]
    obtain ⟨x, hx⟩ := Option.isSome_iff_exists.mp hfind
    rw [hx]
    rfl
  · rw [if_neg hc] at hcond
    cases hcond

/-! ## Lemmas: the ReadAll enumeration loop -/

theorem readLoop_ok (fs : FS) (c : String) : ∀ es : List String,
    (∀ f ∈ es, (c, f) ∉ fs.readFail) →
    (∀ f ∈ es, (fs.lookupFile (c, f)).isSome) →
    (readLoop fs c es).1 = .ok (es.map (fun f => (fs.lookupFile (c, f)).getD "")) := by
  intro es
  induction es with
  | nil => intro _ _; rfl
  | cons f rest ih =>
    intro h1 h2
    have hnf : (c, f) ∉ fs.readFail := h1 f (by simp)
    have hsome := h2 f (by simp)
    obtain ⟨b, hb⟩ := Option.isSome_iff_exists.mp hsome
    rw [readLoop]
    rw [if_neg hnf, hb]
    have := ih (fun g hg => h1 g (by simp [hg])) (fun g hg => h2 g (by simp [hg]))
    simp only [List.map_cons]
    cases hrl : readLoop fs c rest with
    | mk r tr =>
      rw [hrl] at this
      simp only at this
      rw [this, hb]
      rfl

theorem readLoop_err (fs : FS) (c : String) : ∀ es : List String,
    (∀ f ∈ es, (fs.lookupFile (c, f)).isSome) →
    (∃ f ∈ es, (c, f) ∈ fs.readFail) →
    (readLoop fs c es).1 = .error .ioFail := by
  intro es
  induction es with
  | nil => intro _ h; simp at h
  | cons f rest ih =>
    intro hsome hex
    by_cases hf : (c, f) ∈ fs.readFail
    · rw [readLoop, if_pos hf]
    · rw [readLoop, if_neg hf]
      obtain ⟨b, hb⟩ := Option.isSome_iff_exists.mp (hsome f (by simp))
      rw [hb]
      have hex' : ∃ g ∈ rest, (c, g) ∈ fs.readFail := by
        obtain ⟨g, hg, hgf⟩ := hex
        rcases List.mem_cons.mp hg with rfl | hg'
        · exact absurd hgf hf
        · exact ⟨g, hg', hgf⟩
      have := ih (fun g hg => hsome g (by simp [hg])) hex'
      cases hrl : readLoop fs c rest with
      | mk r tr =>
        rw [hrl] at this
        simp only at this
        rw [this]
        rfl

/-! ## Driver operation lemmas -/

theorem setFile_mkdirFail (fs : FS) (p : FileKey) (b : String) :
    (fs.setFile p b).mkdirFail = fs.mkdirFail := rfl

theorem setFile_writeFail (fs : FS) (p : FileKey) (b : String) :
    (fs.setFile p b).writeFail = fs.writeFail := rfl

/-- A Write whose validation passes and whose touched paths carry no
injected fault runs the full success path of src/main.go lines 47-68. -/
theorem Write_success (d : Driver) (fs : FS) (c r : String) (j : Json)
    (hc : c ≠ "") (hr : r ≠ "") (hmk : c ∉ fs.mkdirFail)
    (hwf : ((c, r ++ ".json") : FileKey) ∉ fs.writeFail) :
    Write d fs c r (.ofJson j) =
      ⟨.ok (), getOrCreateMutex d c,
        (fs.addDir c).setFile (c, r ++ ".json") (marshal j),
        [.acquire c, .mkdirAll c, .writeFile (c, r ++ ".json"), .release c]⟩ := by
  have hval : ¬ (c = "" ∨ r = "") := by simp [hc, hr]
  simp only [Write, marshalIndent, if_neg hval, if_neg hmk, if_neg hwf]

/-! ## Claims -/

/-- Claim C1: for every valid triple of non-empty collection name,
non-empty resource id and serializable value, with no injected I/O
fault at the touched paths, Write(collection, resourceId, value)
succeeds and a subsequent Read of the same key succeeds and yields a
value deep-equal to the one written. -/
theorem claim_C1_roundtrip (d : Driver) (fs : FS) (c r : String) (j : Json)
    (hc : c ≠ "") (hr : r ≠ "") (hmk : c ∉ fs.mkdirFail)
    (hwf : ((c, r ++ ".json") : FileKey) ∉ fs.writeFail)
    (hrf : ((c, r ++ ".json") : FileKey) ∉ fs.readFail) :
    (Write d fs c r (.ofJson j)).res = .ok () ∧
    (Read (Write d fs c r (.ofJson j)).drv (Write d fs c r (.ofJson j)).fs c r).res =
      .ok j := by
  rw [Write_success d fs c r j hc hr hmk hwf]
  refine ⟨rfl, ?_⟩
  have hlk := lookupFile_setFile_self (fs.addDir c) (c, r ++ ".json") (marshal j)
  have hnr : ((c, r ++ ".json") : FileKey) ∉
      ((fs.addDir c).setFile (c, r ++ ".json") (marshal j)).readFail := by
    rw [setFile_readFail, addDir_readFail]; exact hrf
  simp only [Read, hlk, if_neg hnr, unmarshal_marshal]

/-- Claim C2: Write with an empty collection name or an empty resource
id returns the "missing collection or resource" validation error,
leaves the filesystem untouched and performs no lock or filesystem
event. -/
theorem claim_C2_validation_gate (d : Driver) (fs : FS) (c r : String) (v : GoVal) :
    Write d fs "" r v = ⟨.error .validation, d, fs, []⟩ ∧
    Write d fs c "" v = ⟨.error .validation, d, fs, []⟩ ∧
    Err.message .validation = "missing collection or resource" := by
  refine ⟨?_, ?_, rfl⟩
  · rw [Write, if_pos (Or.inl rfl)]
  · rw [Write, if_pos (Or.inr rfl)]

/-- Claim C3 counterexample: Delete with empty collection and resource
does not return the validation error (it attempts removal and fails
with the not-found error) and it does perform filesystem access. -/
theorem claim_C3_counterexample :
    (Delete ⟨"./data", []⟩ ⟨[], [], [], [], [], []⟩ "" "").res ≠ .error .validation ∧
    Event.removeFile ("", ".json") ∈
      (Delete ⟨"./data", []⟩ ⟨[], [], [], [], [], []⟩ "" "").tr := by
  constructor
  · rw [show (Delete ⟨"./data", []⟩ ⟨[], [], [], [], [], []⟩ "" "").res =
      .error .notFound from rfl]
    intro h
    injection h with h'
    exact Err.noConfusion h'
  · rw [show (Delete ⟨"./data", []⟩ ⟨[], [], [], [], [], []⟩ "" "").tr =
      [.acquire "", .removeFile ("", ".json"), .release ""] from rfl]
    simp

/-- Claim C3 as amended: Delete performs no validation of its names:
for every input, including empty collection or resource, it never
returns the validation error and it attempts the file removal. -/
theorem claim_C3_amended (d : Driver) (fs : FS) (c r : String) :
    (Delete d fs c r).res ≠ .error .validation ∧
    Event.removeFile (c, r ++ ".json") ∈ (Delete d fs c r).tr := by
  cases h : fs.lookupFile (c, r ++ ".json") with
  | none =>
    simp only [Delete, h]
    constructor
    · intro hcon
      injection hcon with h'
      exact Err.noConfusion h'
    · simp
  | some b =>
    simp only [Delete, h]
    constructor
    · intro hcon
      exact Except.noConfusion hcon
    · simp

/-- Claim C4: writing the same key and value twice leaves the record
file's content identical to the content after a single Write. -/
theorem claim_C4_idempotent (d : Driver) (fs : FS) (c r : String) (v : GoVal)
    (hc : c ≠ "") (hr : r ≠ "") :
    ((Write (Write d fs c r v).drv (Write d fs c r v).fs c r v).fs).lookupFile
        (c, r ++ ".json") =
      ((Write d fs c r v).fs).lookupFile (c, r ++ ".json") := by
  have hval : ¬ (c = "" ∨ r = "") := by simp [hc, hr]
  by_cases hmk : c ∈ fs.mkdirFail
  · have h1 : (Write d fs c r v).fs = fs := by
      simp only [Write, if_neg hval, if_pos hmk]
    rw [h1]
    have h2 : (Write (Write d fs c r v).drv fs c r v).fs = fs := by
      simp only [Write, if_neg hval, if_pos hmk]
    rw [h2]
  · cases v with
    | unencodable =>
      have h1 : (Write d fs c r (.unencodable)).fs = fs.addDir c := by
        simp only [Write, if_neg hval, if_neg hmk, marshalIndent]
      have hmk2 : c ∉ (fs.addDir c).mkdirFail := by
        rw [addDir_mkdirFail]; exact hmk
      rw [h1]
      have h2 : (Write (Write d fs c r (.unencodable)).drv (fs.addDir c) c r
          (.unencodable)).fs = (fs.addDir c).addDir c := by
        simp only [Write, if_neg hval, if_neg hmk2, marshalIndent]
      rw [h2]
      simp [lookupFile_of_addDir]
    | ofJson j =>
      by_cases hwf : ((c, r ++ ".json") : FileKey) ∈ fs.writeFail
      · have h1 : (Write d fs c r (.ofJson j)).fs = fs.addDir c := by
          simp only [Write, if_neg hval, if_neg hmk, marshalIndent, if_pos hwf]
        have hmk2 : c ∉ (fs.addDir c).mkdirFail := by
          rw [addDir_mkdirFail]; exact hmk
        have hwf2 : ((c, r ++ ".json") : FileKey) ∈ (fs.addDir c).writeFail := by
          rw [addDir_writeFail]; exact hwf
        rw [h1]
        have h2 : (Write (Write d fs c r (.ofJson j)).drv (fs.addDir c) c r
            (.ofJson j)).fs = (fs.addDir c).addDir c := by
          simp only [Write, if_neg hval, if_neg hmk2, marshalIndent, if_pos hwf2]
        rw [h2]
        simp [lookupFile_of_addDir]
      · rw [Write_success d fs c r j hc hr hmk hwf]
        have hfs1 : ((fs.addDir c).setFile (c, r ++ ".json") (marshal j)).mkdirFail =
            fs.mkdirFail := by
          rw [setFile_mkdirFail, addDir_mkdirFail]
        have hfs1w : ((fs.addDir c).setFile (c, r ++ ".json") (marshal j)).writeFail =
            fs.writeFail := by
          rw [setFile_writeFail, addDir_writeFail]
        rw [Write_success _ _ c r j hc hr (by rw [hfs1]; exact hmk)
          (by rw [hfs1w]; exact hwf)]
        rw [lookupFile_setFile_self, lookupFile_setFile_self]

/-- Claim C5: after a successful Write of a key followed by Delete of
the same key, the Delete succeeds and a Read of the key fails with the
not-found error. -/
theorem claim_C5_delete_removes (d : Driver) (fs : FS) (c r : String) (j : Json)
    (hc : c ≠ "") (hr : r ≠ "") (hmk : c ∉ fs.mkdirFail)
    (hwf : ((c, r ++ ".json") : FileKey) ∉ fs.writeFail) :
    (Delete (Write d fs c r (.ofJson j)).drv (Write d fs c r (.ofJson j)).fs c r).res =
      .ok () ∧
    (Read (Delete (Write d fs c r (.ofJson j)).drv (Write d fs c r (.ofJson j)).fs c r).drv
      (Delete (Write d fs c r (.ofJson j)).drv (Write d fs c r (.ofJson j)).fs c r).fs
      c r).res = .error .notFound := by
  rw [Write_success d fs c r j hc hr hmk hwf]
  have hlk := lookupFile_setFile_self (fs.addDir c) (c, r ++ ".json") (marshal j)
  constructor
  · simp only [Delete, hlk]
  · simp only [Delete, hlk, Read, lookupFile_removeFile_self]

/-- Claim C6: Read of an absent record file fails with the not-found
error and touches no collection lock; Read of a present, readable file
whose bytes do not decode fails with the deserialization error. -/
theorem claim_C6_read_errors (d : Driver) (fs : FS) (c r : String) :
    (fs.lookupFile (c, r ++ ".json") = none →
      (Read d fs c r).res = .error .notFound ∧
      ∀ c', Event.acquire c' ∉ (Read d fs c r).tr) ∧
    (∀ b, fs.lookupFile (c, r ++ ".json") = some b →
      ((c, r ++ ".json") : FileKey) ∉ fs.readFail →
      unmarshal b = .error .deserializeFail →
      (Read d fs c r).res = .error .deserializeFail) := by
  constructor
  · intro h
    constructor
    · simp only [Read, h]
    · intro c' hc'
      simp only [Read, h] at hc'
      simp at hc'
  · intro b hb hrf hun
    simp only [Read, hb, if_neg hrf, hun]

/-- Claim C7: ReadAll fails with the not-found error when the
collection's directory does not exist; with the directory present and
enumeration succeeding, a failing read of any listed file fails the
whole operation with the I/O error, and with no failing read it
returns one raw payload per directory entry. -/
theorem claim_C7_readAll (d : Driver) (fs : FS) (c : String) :
    (fs.dirExists c = false → (ReadAll d fs c).res = .error .notFound) ∧
    (fs.dirExists c = true → c ∉ fs.readDirFail →
      (∃ f ∈ fs.dirEntries c, ((c, f) : FileKey) ∈ fs.readFail) →
      (ReadAll d fs c).res = .error .ioFail) ∧
    (fs.dirExists c = true → c ∉ fs.readDirFail →
      (∀ f ∈ fs.dirEntries c, ((c, f) : FileKey) ∉ fs.readFail) →
      (ReadAll d fs c).res =
        .ok ((fs.dirEntries c).map (fun f => (fs.lookupFile (c, f)).getD ""))) := by
  refine ⟨?_, ?_, ?_⟩
  · intro h
    rw [ReadAll, if_pos h]
  · intro h1 h2 hex
    have herr := readLoop_err fs c (fs.dirEntries c) (dirEntries_lookup fs c) hex
    cases hrl : readLoop fs c (fs.dirEntries c) with
    | mk rr tr =>
      rw [hrl] at herr
      simp only at herr
      simp only [ReadAll, if_neg (show ¬ fs.dirExists c = false by simp [h1]),
        if_neg h2, hrl]
      exact herr
  · intro h1 h2 hok
    have hloop := readLoop_ok fs c (fs.dirEntries c) hok (dirEntries_lookup fs c)
    cases hrl : readLoop fs c (fs.dirEntries c) with
    | mk rr tr =>
      rw [hrl] at hloop
      simp only at hloop
      simp only [ReadAll, if_neg (show ¬ fs.dirExists c = false by simp [h1]),
        if_neg h2, hrl]
      exact hloop

/-- Claim C8: a successful Write stores the record at the key
(collection, resource + ".json") with contents exactly the
tab-indented MarshalIndent serialization of the value, creating the
collection directory and the file or fully replacing the file's prior
contents, whatever they were. -/
theorem claim_C8_write_stores (d : Driver) (fs : FS) (c r : String) (j : Json)
    (hc : c ≠ "") (hr : r ≠ "") (hmk : c ∉ fs.mkdirFail)
    (hwf : ((c, r ++ ".json") : FileKey) ∉ fs.writeFail) :
    (Write d fs c r (.ofJson j)).res = .ok () ∧
    ((Write d fs c r (.ofJson j)).fs).lookupFile (c, r ++ ".json") =
      some (marshal j) ∧
    c ∈ ((Write d fs c r (.ofJson j)).fs).dirs := by
  rw [Write_success d fs c r j hc hr hmk hwf]
  refine ⟨rfl, lookupFile_setFile_self _ _ _, ?_⟩
  rw [show ((fs.addDir c).setFile (c, r ++ ".json") (marshal j)).dirs =
    (fs.addDir c).dirs from rfl]
  exact mem_addDir_dirs fs c

/-- Claim C9: every Write and every Delete ends with no collection
lock held: each acquire in its event trace is matched by a release, on
the success paths and on every error path alike. -/
theorem claim_C9_locks_released (d : Driver) (fs : FS) (c r : String) (v : GoVal) :
    heldAfter (Write d fs c r v).tr [] = [] ∧
    heldAfter (Delete d fs c r).tr [] = [] := by
  constructor
  · by_cases hval : c = "" ∨ r = ""
    · simp [Write, hval, heldAfter]
    · by_cases hmk : c ∈ fs.mkdirFail
      · simp [Write, hval, hmk, heldAfter]
      · cases v with
        | unencodable => simp [Write, hval, hmk, marshalIndent, heldAfter]
        | ofJson j =>
          by_cases hwf : ((c, r ++ ".json") : FileKey) ∈ fs.writeFail
          · simp [Write, hval, hmk, hwf, marshalIndent, heldAfter]
          · simp [Write, hval, hmk, hwf, marshalIndent, heldAfter]
  · cases h : fs.lookupFile (c, r ++ ".json") with
    | none => simp [Delete, h, heldAfter]
    | some b => simp [Delete, h, heldAfter]

/-- Claim C10: when the collection's directory exists but the
directory enumeration itself fails, ReadAll discards the enumeration
error and returns an empty payload sequence with no error, exactly as
for an empty collection. -/
theorem claim_C10_readdir_error_ignored (d : Driver) (fs : FS) (c : String)
    (h1 : fs.dirExists c = true) (h2 : c ∈ fs.readDirFail) :
    (ReadAll d fs c).res = .ok [] := by
  simp only [ReadAll, if_neg (show ¬ fs.dirExists c = false by simp [h1]),
    if_pos h2, readLoop]

/-! ## Witnesses -/

theorem claim_C1_witness :
    ("users" : String) ≠ "" ∧ ("john" : String) ≠ "" ∧
    "users" ∉ (⟨[], [], [], [], [], []⟩ : FS).mkdirFail ∧
    (("users", "john" ++ ".json") : FileKey) ∉ (⟨[], [], [], [], [], []⟩ : FS).writeFail ∧
    (("users", "john" ++ ".json") : FileKey) ∉ (⟨[], [], [], [], [], []⟩ : FS).readFail ∧
    ((Write ⟨"./data", []⟩ ⟨[], [], [], [], [], []⟩ "users" "john"
        (.ofJson (.str "hi"))).res = .ok () ∧
      (Read (Write ⟨"./data", []⟩ ⟨[], [], [], [], [], []⟩ "users" "john"
          (.ofJson (.str "hi"))).drv
        (Write ⟨"./data", []⟩ ⟨[], [], [], [], [], []⟩ "users" "john"
          (.ofJson (.str "hi"))).fs "users" "john").res = .ok (.str "hi")) :=
  ⟨by decide, by decide, by decide, by decide, by decide,
    claim_C1_roundtrip ⟨"./data", []⟩ ⟨[], [], [], [], [], []⟩ "users" "john" (.str "hi")
      (by decide) (by decide) (by decide) (by decide) (by decide)⟩

theorem claim_C4_witness :
    ("users" : String) ≠ "" ∧ ("john" : String) ≠ "" ∧
    ((Write (Write ⟨"./data", []⟩ ⟨[], [], [], [], [], []⟩ "users" "john"
          (.ofJson (.str "hi"))).drv
        (Write ⟨"./data", []⟩ ⟨[], [], [], [], [], []⟩ "users" "john"
          (.ofJson (.str "hi"))).fs
        "users" "john" (.ofJson (.str "hi"))).fs).lookupFile ("users", "john" ++ ".json") =
      ((Write ⟨"./data", []⟩ ⟨[], [], [], [], [], []⟩ "users" "john"
          (.ofJson (.str "hi"))).fs).lookupFile ("users", "john" ++ ".json") :=
  ⟨by decide, by decide,
    claim_C4_idempotent ⟨"./data", []⟩ ⟨[], [], [], [], [], []⟩ "users" "john"
      (.ofJson (.str "hi")) (by decide) (by decide)⟩

theorem claim_C5_witness :
    ("users" : String) ≠ "" ∧ ("john" : String) ≠ "" ∧
    "users" ∉ (⟨[], [], [], [], [], []⟩ : FS).mkdirFail ∧
    (("users", "john" ++ ".json") : FileKey) ∉ (⟨[], [], [], [], [], []⟩ : FS).writeFail ∧
    ((Delete (Write ⟨"./data", []⟩ ⟨[], [], [], [], [], []⟩ "users" "john"
          (.ofJson (.str "hi"))).drv
        (Write ⟨"./data", []⟩ ⟨[], [], [], [], [], []⟩ "users" "john"
          (.ofJson (.str "hi"))).fs "users" "john").res = .ok () ∧
      (Read (Delete (Write ⟨"./data", []⟩ ⟨[], [], [], [], [], []⟩ "users" "john"
            (.ofJson (.str "hi"))).drv
          (Write ⟨"./data", []⟩ ⟨[], [], [], [], [], []⟩ "users" "john"
            (.ofJson (.str "hi"))).fs "users" "john").drv
        (Delete (Write ⟨"./data", []⟩ ⟨[], [], [], [], [], []⟩ "users" "john"
            (.ofJson (.str "hi"))).drv
          (Write ⟨"./data", []⟩ ⟨[], [], [], [], [], []⟩ "users" "john"
            (.ofJson (.str "hi"))).fs "users" "john").fs
        "users" "john").res = .error .notFound) :=
  ⟨by decide, by decide, by decide, by decide,
    claim_C5_delete_removes ⟨"./data", []⟩ ⟨[], [], [], [], [], []⟩ "users" "john"
      (.str "hi") (by decide) (by decide) (by decide) (by decide)⟩

theorem claim_C6_witness :
    ((⟨[], [], [], [], [], []⟩ : FS).lookupFile ("users", "john" ++ ".json") = none ∧
      ((Read ⟨"./data", []⟩ ⟨[], [], [], [], [], []⟩ "users" "john").res =
          .error .notFound ∧
        ∀ c', Event.acquire c' ∉
          (Read ⟨"./data", []⟩ ⟨[], [], [], [], [], []⟩ "users" "john").tr)) ∧
    ((⟨[], [(("users", "john" ++ ".json"), "\x7b")], [], [], [], []⟩ : FS).lookupFile
        ("users", "john" ++ ".json") = some "\x7b" ∧
      (("users", "john" ++ ".json") : FileKey) ∉
        (⟨[], [(("users", "john" ++ ".json"), "\x7b")], [], [], [], []⟩ : FS).readFail ∧
      unmarshal "\x7b" = .error .deserializeFail ∧
      (Read ⟨"./data", []⟩
          ⟨[], [(("users", "john" ++ ".json"), "\x7b")], [], [], [], []⟩
          "users" "john").res = .error .deserializeFail) :=
  ⟨⟨rfl, (claim_C6_read_errors ⟨"./data", []⟩ ⟨[], [], [], [], [], []⟩
      "users" "john").1 rfl⟩,
    ⟨rfl, by decide, rfl,
      (claim_C6_read_errors ⟨"./data", []⟩
        ⟨[], [(("users", "john" ++ ".json"), "\x7b")], [], [], [], []⟩
        "users" "john").2 "\x7b" rfl (by decide) rfl⟩⟩

theorem claim_C7_witness :
    ((⟨[], [], [], [], [], []⟩ : FS).dirExists "nope" = false ∧
      (ReadAll ⟨"./data", []⟩ ⟨[], [], [], [], [], []⟩ "nope").res = .error .notFound) ∧
    ((⟨["c"], [(("c", "a.json"), "1")], [], [("c", "a.json")], [], []⟩ : FS).dirExists "c" =
          true ∧
      "c" ∉ (⟨["c"], [(("c", "a.json"), "1")], [], [("c", "a.json")], [], []⟩ : FS).readDirFail ∧
      (∃ f ∈ (⟨["c"], [(("c", "a.json"), "1")], [], [("c", "a.json")], [], []⟩ : FS).dirEntries "c",
        (("c", f) : FileKey) ∈
          (⟨["c"], [(("c", "a.json"), "1")], [], [("c", "a.json")], [], []⟩ : FS).readFail) ∧
      (ReadAll ⟨"./data", []⟩
          ⟨["c"], [(("c", "a.json"), "1")], [], [("c", "a.json")], [], []⟩ "c").res =
        .error .ioFail) ∧
    ((⟨["c"], [(("c", "a.json"), "1")], [], [], [], []⟩ : FS).dirExists "c" = true ∧
      "c" ∉ (⟨["c"], [(("c", "a.json"), "1")], [], [], [], []⟩ : FS).readDirFail ∧
      (∀ f ∈ (⟨["c"], [(("c", "a.json"), "1")], [], [], [], []⟩ : FS).dirEntries "c",
        (("c", f) : FileKey) ∉
          (⟨["c"], [(("c", "a.json"), "1")], [], [], [], []⟩ : FS).readFail) ∧
      (ReadAll ⟨"./data", []⟩ ⟨["c"], [(("c", "a.json"), "1")], [], [], [], []⟩ "c").res =
        .ok (((⟨["c"], [(("c", "a.json"), "1")], [], [], [], []⟩ : FS).dirEntries "c").map
          (fun f => ((⟨["c"], [(("c", "a.json"), "1")], [], [], [], []⟩ : FS).lookupFile
            ("c", f)).getD ""))) :=
  ⟨⟨by decide, (claim_C7_readAll ⟨"./data", []⟩ ⟨[], [], [], [], [], []⟩ "nope").1
      (by decide)⟩,
    ⟨by decide, by decide, by decide,
      (claim_C7_readAll ⟨"./data", []⟩
        ⟨["c"], [(("c", "a.json"), "1")], [], [("c", "a.json")], [], []⟩ "c").2.1
        (by decide) (by decide) (by decide)⟩,
    ⟨by decide, by decide, by decide,
      (claim_C7_readAll ⟨"./data", []⟩
        ⟨["c"], [(("c", "a.json"), "1")], [], [], [], []⟩ "c").2.2
        (by decide) (by decide) (by decide)⟩⟩

theorem claim_C8_witness :
    ("users" : String) ≠ "" ∧ ("john" : String) ≠ "" ∧
    "users" ∉ (⟨[], [], [], [], [], []⟩ : FS).mkdirFail ∧
    (("users", "john" ++ ".json") : FileKey) ∉ (⟨[], [], [], [], [], []⟩ : FS).writeFail ∧
    ((Write ⟨"./data", []⟩ ⟨[], [], [], [], [], []⟩ "users" "john"
        (.ofJson (.str "hi"))).res = .ok () ∧
      ((Write ⟨"./data", []⟩ ⟨[], [], [], [], [], []⟩ "users" "john"
          (.ofJson (.str "hi"))).fs).lookupFile ("users", "john" ++ ".json") =
        some (marshal (.str "hi")) ∧
      "users" ∈ ((Write ⟨"./data", []⟩ ⟨[], [], [], [], [], []⟩ "users" "john"
          (.ofJson (.str "hi"))).fs).dirs) :=
  ⟨by decide, by decide, by decide, by decide,
    claim_C8_write_stores ⟨"./data", []⟩ ⟨[], [], [], [], [], []⟩ "users" "john"
      (.str "hi") (by decide) (by decide) (by decide) (by decide)⟩

theorem claim_C10_witness :
    (⟨["c"], [], [], [], [], ["c"]⟩ : FS).dirExists "c" = true ∧
    "c" ∈ (⟨["c"], [], [], [], [], ["c"]⟩ : FS).readDirFail ∧
    (ReadAll ⟨"./data", []⟩ ⟨["c"], [], [], [], [], ["c"]⟩ "c").res = .ok [] :=
  ⟨by decide, by decide,
    claim_C10_readdir_error_ignored ⟨"./data", []⟩ ⟨["c"], [], [], [], [], ["c"]⟩ "c"
      (by decide) (by decide)⟩
